import Mathlib

/-!
Verification of the wayback downloader scripts
(`wayback_downloader.py`, `wayback_gather.py`).

The Python code is shallowly embedded: strings are `String`/`List Char`,
the working directory is a list of existing file names, the HTTP client is
an oracle `Fetch : String → Except String String` (error message or body),
and the two stateful loops (`downloader`, the retry loop of
`retry_failed_downloads`) are folds over that explicit state.
-/

namespace Wayback

/-- Python `s.index(pat)` on strings (as `List Char`): index of the first
occurrence of `pat` as a contiguous substring, `none` when absent
(`str.index` raises `ValueError` then). -/
def findSub (pat : List Char) : List Char → Option Nat
  | [] => if pat.isPrefixOf ([] : List Char) then some 0 else none
  | c :: t =>
    if pat.isPrefixOf (c :: t) then some 0
    else (findSub pat t).map (· + 1)

/-- Python `os.path.basename` on POSIX: everything after the last `/`. -/
def basename (p : List Char) : List Char :=
  (p.reverse.takeWhile (fun c => c ≠ '/')).reverse

/-- The character class `[a-zA-Z0-9_.-]` of the sanitizing regex in
`construct_file_name`. -/
def isAllowedChar (c : Char) : Bool :=
  (97 ≤ c.toNat && c.toNat ≤ 122) || (65 ≤ c.toNat && c.toNat ≤ 90) ||
  (48 ≤ c.toNat && c.toNat ≤ 57) || c = '_' || c = '.' || c = '-'

/-- One character of `re.sub(r'[^a-zA-Z0-9_.-]', '_', ...)`: a disallowed
character becomes `_`. -/
def sanitizeChar (c : Char) : Char :=
  if isAllowedChar c then c else '_'

/-- `construct_file_name` (identical in both scripts): timestamp between
`/web/` and `if_/` (first occurrences), basename of the part after `if_/`
with the query string stripped, basename sanitized; `None` when either
marker is absent (`ValueError` from `str.index`). -/
def constructFileName (url : String) : Option String :=
  let s := url.data
  match findSub "/web/".data s, findSub "if_/".data s with
  | some i, some e =>
    let timestamp := (s.drop (i + 5)).take (e - (i + 5))
    let path := (s.drop (e + 4)).takeWhile (fun c => c ≠ '?')
    let sanitized := (basename path).map sanitizeChar
    some (String.mk (timestamp ++ '_' :: sanitized))
  | _, _ => none

/-- `s` contains `pat` as a contiguous substring. -/
def containsSub (s pat : List Char) : Prop :=
  ∃ a b, s = a ++ pat ++ b

example : constructFileName
    "https://web.archive.org/web/20200101000000if_/https://example.com/a/b.html?x=1" =
    some "20200101000000_b.html" := by decide

example : constructFileName "x/web/2 0if_/a" = some "2 0_a" := by decide

example : constructFileName "https://example.com/a" = none := by decide

example : constructFileName "if_/x/web/123" = some "_123" := by decide

/-- One entry of the `errors` list: `{"url": ..., "error": ...}`. -/
structure ErrEntry where
  url : String
  error : String
deriving DecidableEq

/-- The in-memory status document `{"downloaded": [], "skipped": [], "errors": []}`. -/
structure Status where
  downloaded : List String
  skipped : List String
  errors : List ErrEntry
deriving DecidableEq

/-- The HTTP client as an oracle: `requests.get(url)` either returns a body
(`Except.ok`) or raises a `RequestException` with a message (`Except.error`). -/
def Fetch : Type := String → Except String String

/-- State threaded through a download run: the set of file names existing in
the working directory, and the status document. -/
structure DlState where
  fs : List String
  st : Status
deriving DecidableEq

/-- One iteration of the loop in `downloader`: derive the file name
(`None`/empty records an "Invalid file name" error), skip when the file
exists, otherwise fetch and either write the file or record the error. -/
def dlStep (f : Fetch) (s : DlState) (url : String) : DlState :=
  match constructFileName url with
  | none =>
    ⟨s.fs, { s.st with errors := s.st.errors ++ [⟨url, "Invalid file name"⟩] }⟩
  | some fn =>
    if fn ∈ s.fs then
      ⟨s.fs, { s.st with skipped := s.st.skipped ++ [fn] }⟩
    else
      match f url with
      | Except.ok _ =>
        ⟨s.fs ++ [fn], { s.st with downloaded := s.st.downloaded ++ [fn] }⟩
      | Except.error m =>
        ⟨s.fs, { s.st with errors := s.st.errors ++ [⟨url, m⟩] }⟩

/-- The loop of `downloader` run from an arbitrary state. -/
def dlRun (f : Fetch) (urls : List String) (s : DlState) : DlState :=
  urls.foldl (dlStep f) s

/-- `downloader(urls, ...)` on a working directory holding the files `fs0`:
fresh empty status, then the loop. -/
def downloader (f : Fetch) (urls : List String) (fs0 : List String) : DlState :=
  dlRun f urls ⟨fs0, ⟨[], [], []⟩⟩

/-- How many of the three status lists represent the URL `u`:
its derived file name being in `downloaded`, in `skipped`, and `u` being the
`url` field of some `errors` entry each count one. -/
def repCount (u : String) (st : Status) : Nat :=
  (match constructFileName u with
   | some fn => (if fn ∈ st.downloaded then 1 else 0) + (if fn ∈ st.skipped then 1 else 0)
   | none => 0) +
  (if u ∈ st.errors.map (fun e => e.url) then 1 else 0)

/-- State threaded through the retry loop of `retry_failed_downloads`:
the files of the working directory, the status document being mutated, and
the list of URLs actually fetched over the network. -/
structure RetryState where
  fs : List String
  doc : Status
  calls : List String
deriving DecidableEq

/-- One iteration of the retry loop: no-op when the file name cannot be
derived or the file already exists; otherwise fetch, and on success append
to `downloaded` and drop the URL's entries from `errors`, on failure
overwrite the `error` field of the URL's entries in place. -/
def retryStep (f : Fetch) (s : RetryState) (url : String) : RetryState :=
  match constructFileName url with
  | none => s
  | some fn =>
    if fn ∈ s.fs then s
    else
      match f url with
      | Except.ok _ =>
        ⟨s.fs ++ [fn],
         { s.doc with
            downloaded := s.doc.downloaded ++ [fn],
            errors := s.doc.errors.filter (fun e => decide (e.url ≠ url)) },
         s.calls ++ [url]⟩
      | Except.error m =>
        ⟨s.fs,
         { s.doc with
            errors := s.doc.errors.map (fun e => if e.url = url then ⟨e.url, m⟩ else e) },
         s.calls ++ [url]⟩

/-- The body of `retry_failed_downloads` after the status file was loaded:
`failed_urls` is computed up front from `errors`; when it is empty the
function returns without touching anything (second component `false`: the
status file is not rewritten); otherwise the loop runs and the file is
rewritten (`true`). -/
def retryRun (f : Fetch) (doc : Status) (fs0 : List String) : RetryState × Bool :=
  let failed := doc.errors.map (fun e => e.url)
  if failed = [] then (⟨fs0, doc, []⟩, false)
  else (failed.foldl (retryStep f) ⟨fs0, doc, []⟩, true)

/-- The snapshot URL built from a CDX row `i` as
`f"https://web.archive.org/web/{i[0]}if_/{i[1]}"`; only applied to rows
with at least two elements. -/
def mkSnap (row : List String) : String :=
  match row with
  | a :: b :: _ => "https://web.archive.org/web/" ++ a ++ "if_/" ++ b
  | _ => ""

/-- The list comprehension of `get_all_links` in `wayback_downloader.py`:
keeps every row with more than one element that is not the literal header
row, anywhere in the list. -/
def getAllLinksDownloader (obj : List (List String)) : List String :=
  (obj.filter (fun i => decide (1 < i.length) && decide (i ≠ ["timestamp", "original"]))).map mkSnap

/-- `get_all_links` in `wayback_gather.py`: pops a leading literal header
row if present, then keeps every row with more than one element. -/
def getAllLinksGather (obj : List (List String)) : List String :=
  let obj2 :=
    match obj with
    | [] => ([] : List (List String))
    | r :: rest => if r = ["timestamp", "original"] then rest else r :: rest
  (obj2.filter (fun i => decide (1 < i.length))).map mkSnap

/-- A parsed JSON value, as much of Python's `json.load` result as the
status file handling needs. -/
inductive JVal where
  | jstr (s : String)
  | jnum (n : Int)
  | jlist (xs : List JVal)
  | jdict (kvs : List (String × JVal))
  | jother

/-- Python dict lookup on a parsed JSON object. -/
def pyFind (kvs : List (String × JVal)) (k : String) : Option JVal :=
  (kvs.find? (fun p => p.1 == k)).map (fun p => p.2)

/-- `item["url"]` for one element of the `errors` list: `none` models the
uncaught Python exception raised when `item` is not a dict with a string
under `"url"`. -/
def urlOf : JVal → Option String
  | JVal.jdict kvs =>
    match pyFind kvs "url" with
    | some (JVal.jstr s) => some s
    | _ => none
  | _ => none

/-- `[item["url"] for item in items]`: the whole comprehension crashes
(`none`) as soon as one element does. -/
def extractUrlsItems : List JVal → Option (List String)
  | [] => some []
  | it :: rest =>
    match urlOf it with
    | none => none
    | some u => (extractUrlsItems rest).map (fun us => u :: us)

/-- `[item["url"] for item in X]` where `X` must be iterable as a list of
entries; a non-list crashes. -/
def extractUrls : JVal → Option (List String)
  | JVal.jlist items => extractUrlsItems items
  | _ => none

/-- What loading the status file produced: the file was missing, its bytes
were not valid JSON (`json.JSONDecodeError`), or a parsed value. -/
inductive LoadResult where
  | missing
  | badJson
  | parsed (v : JVal)

/-- How the front part of `retry_failed_downloads` ends. -/
inductive RetryPhase1 where
  | fatalExit
  | pyCrash
  | noFailures
  | retrying (urls : List String)

/-- `retry_failed_downloads` up to (and including) the
`if not failed_urls: return` check: `exit(1)` on a missing file or a JSON
parse error; `status_data.get("errors", [])` on the parsed value (an
`AttributeError` crash when it is not a dict), then the URLs of the error
entries; empty means the early successful return. -/
def retryPhase1 : LoadResult → RetryPhase1
  | LoadResult.missing => RetryPhase1.fatalExit
  | LoadResult.badJson => RetryPhase1.fatalExit
  | LoadResult.parsed v =>
    match v with
    | JVal.jdict kvs =>
      match extractUrls (pyFind kvs "errors" |>.getD (JVal.jlist [])) with
      | none => RetryPhase1.pyCrash
      | some [] => RetryPhase1.noFailures
      | some us => RetryPhase1.retrying us
    | _ => RetryPhase1.pyCrash

/-- Modelled from the spec: "the expected JSON shape (a document with
'downloaded', 'skipped', and 'errors' of the specified forms)" — a JSON
object whose `downloaded` and `skipped` are arrays of strings and whose
`errors` is an array of objects with string `url` and `error` fields.
(The code itself has no such check; this is the spec's comparator.) -/
def isStrList : JVal → Bool
  | JVal.jlist xs => xs.all (fun x => match x with | JVal.jstr _ => true | _ => false)
  | _ => false

/-- Modelled from the spec: one well-formed `errors` entry. -/
def isErrObj : JVal → Bool
  | JVal.jdict kvs =>
    (match pyFind kvs "url" with | some (JVal.jstr _) => true | _ => false) &&
    (match pyFind kvs "error" with | some (JVal.jstr _) => true | _ => false)
  | _ => false

/-- Modelled from the spec: the expected shape of a status document. -/
def isExpectedShape : JVal → Bool
  | JVal.jdict kvs =>
    (match pyFind kvs "downloaded" with | some v => isStrList v | none => false) &&
    (match pyFind kvs "skipped" with | some v => isStrList v | none => false) &&
    (match pyFind kvs "errors" with
     | some (JVal.jlist es) => es.all isErrObj
     | _ => false)
  | _ => false

/-- Two URLs that the status lists can keep apart: distinct, and not
deriving the same (present) file name. -/
def Good (a b : String) : Prop :=
  a ≠ b ∧ (constructFileName a = constructFileName b → constructFileName a = none)

/-- `v` is a URL whose representation the step for URL `u` could touch:
`v` is `u` itself, or shares its (present) derived file name. -/
def Matches (v u : String) : Prop :=
  v = u ∨ (constructFileName v = constructFileName u ∧ (constructFileName u).isSome)

/-- The example URL of the spec. -/
def exUrl : String :=
  "https://web.archive.org/web/20200101000000if_/https://example.com/a/b.html?x=1"

/-- A fetch oracle whose every request succeeds. -/
def okFetch : Fetch := fun _ => Except.ok "body"

/-- A fetch oracle whose every request fails. -/
def errFetch : Fetch := fun _ => Except.error "boom"

/-- A fetch oracle under which exactly the URL `x/web/1if_/a` succeeds. -/
def mixFetch : Fetch := fun u =>
  if u = "x/web/1if_/a" then Except.ok "body" else Except.error "boom"

lemma sanitize_allowed (c : Char) : isAllowedChar (sanitizeChar c) = true := by
  by_cases h : isAllowedChar c = true
  · simpa [sanitizeChar, h] using h
  · simp [sanitizeChar, h]
    decide

lemma isPrefixOf_eq_append :
    ∀ (p s : List Char), p.isPrefixOf s = true ↔ ∃ t, s = p ++ t := by
  intro p
  induction p with
  | nil =>
    intro s
    simp [List.isPrefixOf]
  | cons a as ih =>
    intro s
    cases s with
    | nil => simp [List.isPrefixOf]
    | cons b bs =>
      simp only [List.isPrefixOf, Bool.and_eq_true, beq_iff_eq, ih bs, List.cons_append,
        List.cons.injEq]
      constructor
      · rintro ⟨rfl, t, rfl⟩
        exact ⟨t, rfl, rfl⟩
      · rintro ⟨t, rfl, rfl⟩
        exact ⟨rfl, t, rfl⟩

lemma findSub_isSome_iff :
    ∀ (pat s : List Char), (findSub pat s).isSome = true ↔ containsSub s pat := by
  intro pat s
  induction s with
  | nil =>
    constructor
    · intro h
      by_cases hp : pat.isPrefixOf ([] : List Char) = true
      · obtain ⟨t, ht⟩ := (isPrefixOf_eq_append pat []).mp hp
        exact ⟨[], t, by simpa using ht⟩
      · simp [findSub, hp] at h
    · rintro ⟨a, b, hab⟩
      have : pat.isPrefixOf ([] : List Char) = true := by
        rcases a with _ | ⟨x, a2⟩
        · rcases pat with _ | ⟨y, p2⟩
          · simp [List.isPrefixOf]
          · simp at hab
        · simp at hab
      simp [findSub, this]
  | cons c t ih =>
    by_cases hp : pat.isPrefixOf (c :: t) = true
    · simp only [findSub, hp, if_true, Option.isSome_some, true_iff]
      obtain ⟨u, hu⟩ := (isPrefixOf_eq_append pat (c :: t)).mp hp
      exact ⟨[], u, by simpa using hu⟩
    · have hmap : (Option.map (fun x => x + 1) (findSub pat t)).isSome =
          (findSub pat t).isSome := by
        cases findSub pat t <;> rfl
      simp only [findSub, hp, Bool.false_eq_true, if_false, hmap]
      rw [ih]
      constructor
      · rintro ⟨a, b, hab⟩
        exact ⟨c :: a, b, by rw [hab]; simp⟩
      · rintro ⟨a, b, hab⟩
        rcases a with _ | ⟨x, a2⟩
        · exact absurd ((isPrefixOf_eq_append pat (c :: t)).mpr ⟨b, by simpa using hab⟩) hp
        · simp only [List.cons_append, List.cons.injEq] at hab
          exact ⟨a2, b, hab.2⟩

/-- C1: for a URL containing `/web/` and then `if_/`, `construct_file_name`
returns `{timestamp}_{sanitized_basename}` — but only the basename part is
sanitized: the URL `"x/web/2 0if_/a"` has both markers in order (at indices
1 and 9) and yields `"2 0_a"`, which contains a space, a character outside
`[a-zA-Z0-9_.-]`. This refutes the claim that the returned string never
contains such characters. -/
theorem c1_counterexample :
    findSub "/web/".data "x/web/2 0if_/a".data = some 1 ∧
    findSub "if_/".data "x/web/2 0if_/a".data = some 9 ∧
    constructFileName "x/web/2 0if_/a" = some "2 0_a" ∧
    "2 0_a".data.all isAllowedChar = false := by
  refine ⟨by decide, by decide, by decide, by decide⟩

/-- C1 (amended): for every URL whose first `/web/` occurrence (index `i`)
precedes its first `if_/` occurrence (index `e`), `construct_file_name`
returns `{timestamp}_{sanitized_basename}`, where the timestamp is the raw
substring between `i+5` and `e` (copied verbatim, not sanitized) and the
basename — final segment after `if_/` with the query string stripped — is
sanitized so that it contains no character outside `[a-zA-Z0-9_.-]`. -/
theorem c1_amended (url : String) (i e : Nat)
    (hw : findSub "/web/".data url.data = some i)
    (hif : findSub "if_/".data url.data = some e)
    (ho : i < e) :
    ∃ bn, constructFileName url =
        some (String.mk ((url.data.drop (i + 5)).take (e - (i + 5)) ++ '_' :: bn))
      ∧ bn = (basename ((url.data.drop (e + 4)).takeWhile (fun c => c ≠ '?'))).map sanitizeChar
      ∧ ∀ c ∈ bn, isAllowedChar c = true := by
  refine ⟨(basename ((url.data.drop (e + 4)).takeWhile (fun c => c ≠ '?'))).map sanitizeChar,
    ?_, rfl, ?_⟩
  · simp only [constructFileName, hw, hif]
  · intro c hc
    obtain ⟨d, _, rfl⟩ := List.mem_map.mp hc
    exact sanitize_allowed d

/-- Witness for C1 (amended): the spec's example URL has its markers at
indices 23 and 42, and the derived filename is `20200101000000_b.html`. -/
theorem c1_witness :
    findSub "/web/".data exUrl.data = some 23 ∧
    findSub "if_/".data exUrl.data = some 42 ∧
    constructFileName exUrl = some "20200101000000_b.html" := by
  refine ⟨by decide, by decide, ?_⟩
  obtain ⟨bn, h1, h2, h3⟩ := c1_amended exUrl 23 42 (by decide) (by decide) (by decide)
  subst h2
  rw [h1]
  rfl

/-- C2: the claim says that when `/web/` and `if_/` are not both present in
the expected order the function returns `None`; but for
`"if_/x/web/123"` — both markers present, `if_/` (index 0) before `/web/`
(index 5) — the code still returns a filename, `"_123"` (the timestamp
slice is empty because Python slicing with start > end yields `""`). -/
theorem c2_counterexample :
    findSub "/web/".data "if_/x/web/123".data = some 5 ∧
    findSub "if_/".data "if_/x/web/123".data = some 0 ∧
    constructFileName "if_/x/web/123" = some "_123" := by
  refine ⟨by decide, by decide, by decide⟩

/-- C2 (amended): `construct_file_name` returns the failure signal `None`
exactly when the URL lacks the substring `/web/` or lacks the substring
`if_/`; the relative order of the markers is not checked (when both are
present out of order a degenerate filename is still returned). -/
theorem c2_amended (url : String) :
    constructFileName url = none ↔
      ¬ containsSub url.data "/web/".data ∨ ¬ containsSub url.data "if_/".data := by
  have hw := findSub_isSome_iff "/web/".data url.data
  have hi := findSub_isSome_iff "if_/".data url.data
  cases hcw : findSub "/web/".data url.data with
  | none =>
    rw [hcw] at hw
    simp only [Option.isSome_none, Bool.false_eq_true, false_iff] at hw
    simp only [constructFileName, hcw]
    tauto
  | some i =>
    rw [hcw] at hw
    simp only [Option.isSome_some, true_iff] at hw
    cases hci : findSub "if_/".data url.data with
    | none =>
      rw [hci] at hi
      simp only [Option.isSome_none, Bool.false_eq_true, false_iff] at hi
      simp only [constructFileName, hcw, hci]
      tauto
    | some e =>
      rw [hci] at hi
      simp only [Option.isSome_some, true_iff] at hi
      simp only [constructFileName, hcw, hci]
      constructor
      · intro h
        exact Option.noConfusion h
      · rintro (h | h)
        · exact absurd hw h
        · exact absurd hi h

lemma dlStep_count (f : Fetch) (s : DlState) (url : String) :
    (dlStep f s url).st.downloaded.length + (dlStep f s url).st.skipped.length +
      (dlStep f s url).st.errors.length =
    s.st.downloaded.length + s.st.skipped.length + s.st.errors.length + 1 := by
  cases h : constructFileName url with
  | none =>
    simp [dlStep, h, List.length_append]
    omega
  | some fn =>
    by_cases hm : fn ∈ s.fs
    · simp [dlStep, h, hm, List.length_append]
      omega
    · cases hf : f url with
      | ok c =>
        simp [dlStep, h, hm, hf, List.length_append]
        omega
      | error m =>
        simp [dlStep, h, hm, hf, List.length_append]
        omega

lemma dlRun_count (f : Fetch) :
    ∀ (urls : List String) (s : DlState),
    (dlRun f urls s).st.downloaded.length + (dlRun f urls s).st.skipped.length +
      (dlRun f urls s).st.errors.length =
    s.st.downloaded.length + s.st.skipped.length + s.st.errors.length + urls.length := by
  intro urls
  induction urls with
  | nil =>
    intro s
    simp [dlRun]
  | cons a rest ih =>
    intro s
    have h1 := dlStep_count f s a
    have h2 := ih (dlStep f s a)
    simp only [dlRun, List.foldl_cons] at h2 ⊢
    simp only [List.length_cons]
    omega

/-- C6: after any run of `downloader` — any URL list, any per-URL fetch
outcomes, any initial directory contents — the status document satisfies
`len(downloaded) + len(skipped) + len(errors) = len(input URLs)`: each loop
iteration appends exactly one record to exactly one of the three lists. -/
theorem c6_length (f : Fetch) (urls fs0 : List String) :
    (downloader f urls fs0).st.downloaded.length + (downloader f urls fs0).st.skipped.length +
      (downloader f urls fs0).st.errors.length = urls.length := by
  have h := dlRun_count f urls ⟨fs0, ⟨[], [], []⟩⟩
  simpa [downloader] using h

/-- C7: the two `get_all_links` are not equivalent on every parsed row
list: on `[["a","b"], ["timestamp","original"]]` (a header row that is not
the first element) the downloader variant filters out every occurrence of
the header row while the gather variant only pops a leading one, so their
outputs differ. -/
theorem c7_counterexample :
    getAllLinksDownloader [["a", "b"], ["timestamp", "original"]] =
      ["https://web.archive.org/web/aif_/b"] ∧
    getAllLinksGather [["a", "b"], ["timestamp", "original"]] =
      ["https://web.archive.org/web/aif_/b",
       "https://web.archive.org/web/timestampif_/original"] ∧
    getAllLinksDownloader [["a", "b"], ["timestamp", "original"]] ≠
      getAllLinksGather [["a", "b"], ["timestamp", "original"]] := by
  refine ⟨rfl, rfl, by decide⟩

lemma filter_eq_of_no_header (l : List (List String))
    (hl : ["timestamp", "original"] ∉ l) :
    l.filter (fun i => decide (1 < i.length) && decide (i ≠ ["timestamp", "original"])) =
    l.filter (fun i => decide (1 < i.length)) := by
  induction l with
  | nil => rfl
  | cons x xs ih =>
    simp only [List.mem_cons, not_or] at hl
    obtain ⟨hx, hxs⟩ := hl
    have hxne : decide (x ≠ ["timestamp", "original"]) = true := by
      simp
      exact fun hc => hx hc.symm
    simp only [List.filter_cons, hxne, Bool.and_true]
    rw [ih hxs]

/-- C7 (amended): the two archive-lookup computations agree on every parsed
row list in which the literal header row `["timestamp","original"]` occurs
at no position other than the first; in general they differ — the
downloader variant drops every occurrence of the header row, the gather
variant only a leading one. -/
theorem c7_amended (obj : List (List String))
    (h : ["timestamp", "original"] ∉ obj.drop 1) :
    getAllLinksDownloader obj = getAllLinksGather obj := by
  cases obj with
  | nil => rfl
  | cons r rest =>
    have hrest : ["timestamp", "original"] ∉ rest := by simpa using h
    by_cases hr : r = ["timestamp", "original"]
    · subst hr
      simp only [getAllLinksDownloader, getAllLinksGather, if_pos rfl]
      rw [List.filter_cons]
      have hcond : (decide (1 < (["timestamp", "original"] : List String).length) &&
          decide ((["timestamp", "original"] : List String) ≠ ["timestamp", "original"])) =
          false := by decide
      rw [hcond]
      simp only [Bool.false_eq_true, if_false]
      rw [filter_eq_of_no_header rest hrest]
      simp
    · simp only [getAllLinksDownloader, getAllLinksGather, if_neg hr]
      rw [filter_eq_of_no_header (r :: rest) ?_]
      intro hm
      rcases List.mem_cons.mp hm with h1 | h1
      · exact hr h1.symm
      · exact hrest h1

/-- Witness for C7 (amended): with the header row leading, both scripts
compute the same single snapshot URL. -/
theorem c7_witness :
    getAllLinksDownloader [["timestamp", "original"], ["1", "u"]] =
      getAllLinksGather [["timestamp", "original"], ["1", "u"]] :=
  c7_amended [["timestamp", "original"], ["1", "u"]] (by decide)

/-- C9: on a status document whose `errors` list is empty,
`retry_failed_downloads` returns before the loop: no network call is made
(`calls = []`), the working directory and the document are untouched, and
the status file is not rewritten (`false`). -/
theorem c9_noop (f : Fetch) (doc : Status) (fs0 : List String)
    (h : doc.errors = []) :
    retryRun f doc fs0 = (⟨fs0, doc, []⟩, false) := by
  simp [retryRun, h]

/-- Witness for C9: a concrete document with empty `errors`. -/
theorem c9_witness :
    retryRun errFetch ⟨["d"], ["s"], []⟩ ["f1"] =
      (⟨["f1"], ⟨["d"], ["s"], []⟩, []⟩, false) :=
  c9_noop errFetch ⟨["d"], ["s"], []⟩ ["f1"] rfl

/-- C8: the claim says the fatal branch is taken for every file whose
contents do not parse as the expected JSON shape; but the content `{}` —
valid JSON, not of the expected shape (no `downloaded`/`skipped`/`errors`
keys) — is not fatal: `status_data.get("errors", [])` defaults to the empty
list and the function returns successfully as a no-op. -/
theorem c8_counterexample :
    isExpectedShape (JVal.jdict []) = false ∧
    retryPhase1 (LoadResult.parsed (JVal.jdict [])) = RetryPhase1.noFailures ∧
    RetryPhase1.noFailures ≠ RetryPhase1.fatalExit := by
  refine ⟨rfl, rfl, fun hc => RetryPhase1.noConfusion hc⟩

/-- C8 (amended): `retry_failed_downloads` takes its fatal `exit(1)` branch
exactly when the status file is missing or its bytes are not valid JSON;
wrong-shaped but valid JSON is never fatal (a JSON object without a usable
`errors` key is treated as having no failures, and a non-object value
crashes with an uncaught exception instead of the fatal branch). -/
theorem c8_amended (lr : LoadResult) :
    retryPhase1 lr = RetryPhase1.fatalExit ↔
      (lr = LoadResult.missing ∨ lr = LoadResult.badJson) := by
  cases lr with
  | missing => simp [retryPhase1]
  | badJson => simp [retryPhase1]
  | parsed v =>
    constructor
    · intro hc
      exfalso
      cases v with
      | jdict kvs =>
        cases hx : extractUrls ((pyFind kvs "errors").getD (JVal.jlist [])) with
        | none => simp [retryPhase1, hx] at hc
        | some us =>
          cases us with
          | nil => simp [retryPhase1, hx] at hc
          | cons a b => simp [retryPhase1, hx] at hc
      | jstr s => simp [retryPhase1] at hc
      | jnum n => simp [retryPhase1] at hc
      | jlist xs => simp [retryPhase1] at hc
      | jother => simp [retryPhase1] at hc
    · rintro (hq | hq) <;> exact LoadResult.noConfusion hq

/-- C3: idempotence does not hold for every URL list: with input `["x"]`
(no markers, so no filename can be derived) the second run records the URL
in `errors` again and its `skipped` list stays empty, against the claim
that on the second run every input URL is recorded in `skipped`. -/
theorem c3_counterexample :
    (downloader errFetch ["x"] (downloader errFetch ["x"] []).fs).st.skipped = [] ∧
    (downloader errFetch ["x"] (downloader errFetch ["x"] []).fs).st.errors =
      [⟨"x", "Invalid file name"⟩] := by
  refine ⟨rfl, rfl⟩

lemma dlStep_errors_extend (f : Fetch) (s : DlState) (a : String) :
    ∃ t, (dlStep f s a).st.errors = s.st.errors ++ t := by
  cases hcf : constructFileName a with
  | none => exact ⟨[⟨a, "Invalid file name"⟩], by simp [dlStep, hcf]⟩
  | some fn =>
    by_cases hm : fn ∈ s.fs
    · exact ⟨[], by simp [dlStep, hcf, hm]⟩
    · cases hf : f a with
      | ok c => exact ⟨[], by simp [dlStep, hcf, hm, hf]⟩
      | error m => exact ⟨[⟨a, m⟩], by simp [dlStep, hcf, hm, hf]⟩

lemma dlRun_errors_extend (f : Fetch) :
    ∀ (urls : List String) (s : DlState),
      ∃ t, (dlRun f urls s).st.errors = s.st.errors ++ t := by
  intro urls
  induction urls with
  | nil => exact fun s => ⟨[], by simp [dlRun]⟩
  | cons a rest ih =>
    intro s
    obtain ⟨t1, h1⟩ := dlStep_errors_extend f s a
    obtain ⟨t2, h2⟩ := ih (dlStep f s a)
    refine ⟨t1 ++ t2, ?_⟩
    rw [show dlRun f (a :: rest) s = dlRun f rest (dlStep f s a) from rfl, h2, h1,
      List.append_assoc]

lemma dlStep_fs_mono (f : Fetch) (s : DlState) (a : String) :
    ∀ x ∈ s.fs, x ∈ (dlStep f s a).fs := by
  intro x hx
  cases hcf : constructFileName a with
  | none => simpa [dlStep, hcf] using hx
  | some fn =>
    by_cases hm : fn ∈ s.fs
    · simpa [dlStep, hcf, hm] using hx
    · cases hf : f a with
      | ok c =>
        simp [dlStep, hcf, hm, hf, List.mem_append]
        exact Or.inl hx
      | error m => simpa [dlStep, hcf, hm, hf] using hx

lemma dlRun_fs_mono (f : Fetch) :
    ∀ (urls : List String) (s : DlState), ∀ x ∈ s.fs, x ∈ (dlRun f urls s).fs := by
  intro urls
  induction urls with
  | nil => intro s x hx; simpa [dlRun] using hx
  | cons a rest ih =>
    intro s x hx
    exact ih (dlStep f s a) x (dlStep_fs_mono f s a x hx)

lemma dlRun_no_errors (f : Fetch) :
    ∀ (urls : List String) (s : DlState),
      (dlRun f urls s).st.errors = [] →
      ∀ u ∈ urls, ∃ fn, constructFileName u = some fn ∧ fn ∈ (dlRun f urls s).fs := by
  intro urls
  induction urls with
  | nil => intro s _ u hu; cases hu
  | cons a rest ih =>
    intro s h u hu
    rw [show dlRun f (a :: rest) s = dlRun f rest (dlStep f s a) from rfl] at h ⊢
    obtain ⟨t2, h2⟩ := dlRun_errors_extend f rest (dlStep f s a)
    rw [h] at h2
    have herr : (dlStep f s a).st.errors = [] := (List.append_eq_nil.mp h2.symm).1
    rcases List.mem_cons.mp hu with rfl | hm
    · cases hcf : constructFileName u with
      | none => exact absurd herr (by simp [dlStep, hcf])
      | some fn =>
        refine ⟨fn, rfl, ?_⟩
        by_cases hmem : fn ∈ s.fs
        · have hstep : fn ∈ (dlStep f s u).fs := by
            simpa [dlStep, hcf, hmem] using hmem
          exact dlRun_fs_mono f rest _ fn hstep
        · cases hf : f u with
          | ok c =>
            have hstep : fn ∈ (dlStep f s u).fs := by
              simp [dlStep, hcf, hmem, hf, List.mem_append]
            exact dlRun_fs_mono f rest _ fn hstep
          | error m => exact absurd herr (by simp [dlStep, hcf, hmem, hf])
    · exact ih (dlStep f s a) h u hm

lemma dlRun_all_skip (g : Fetch) :
    ∀ (urls : List String) (s : DlState),
      (∀ u ∈ urls, ∃ fn, constructFileName u = some fn ∧ fn ∈ s.fs) →
      (dlRun g urls s).fs = s.fs ∧
      (dlRun g urls s).st.downloaded = s.st.downloaded ∧
      (dlRun g urls s).st.errors = s.st.errors ∧
      (dlRun g urls s).st.skipped = s.st.skipped ++ urls.filterMap constructFileName := by
  intro urls
  induction urls with
  | nil => intro s _; simp [dlRun]
  | cons a rest ih =>
    intro s h
    obtain ⟨fn, hcf, hmem⟩ := h a (List.mem_cons_self a rest)
    have hstep : dlStep g s a = ⟨s.fs, { s.st with skipped := s.st.skipped ++ [fn] }⟩ := by
      simp [dlStep, hcf, hmem]
    rw [show dlRun g (a :: rest) s = dlRun g rest (dlStep g s a) from rfl, hstep]
    have hrest : ∀ u ∈ rest, ∃ f2, constructFileName u = some f2 ∧
        f2 ∈ (⟨s.fs, { s.st with skipped := s.st.skipped ++ [fn] }⟩ : DlState).fs :=
      fun u hu => h u (List.mem_cons_of_mem a hu)
    obtain ⟨e1, e2, e3, e4⟩ := ih ⟨s.fs, { s.st with skipped := s.st.skipped ++ [fn] }⟩ hrest
    refine ⟨e1, e2, e3, ?_⟩
    rw [e4]
    simp [List.filterMap_cons, hcf, List.append_assoc]

/-- C3 (amended): when the first download run ends with an empty `errors`
list, a second run over the same URL list — under any fetch outcomes —
leaves the file set unchanged, downloads nothing, errors on nothing, and
records exactly the derived filename of every input URL in `skipped`. -/
theorem c3_amended (f g : Fetch) (urls fs0 : List String)
    (h : (downloader f urls fs0).st.errors = []) :
    (downloader g urls (downloader f urls fs0).fs).fs = (downloader f urls fs0).fs ∧
    (downloader g urls (downloader f urls fs0).fs).st.downloaded = [] ∧
    (downloader g urls (downloader f urls fs0).fs).st.errors = [] ∧
    (downloader g urls (downloader f urls fs0).fs).st.skipped =
      urls.filterMap constructFileName ∧
    ∀ u ∈ urls, ∃ fn, constructFileName u = some fn ∧
      fn ∈ (downloader g urls (downloader f urls fs0).fs).st.skipped := by
  have hex := dlRun_no_errors f urls ⟨fs0, ⟨[], [], []⟩⟩ h
  obtain ⟨e1, e2, e3, e4⟩ :=
    dlRun_all_skip g urls ⟨(downloader f urls fs0).fs, ⟨[], [], []⟩⟩ hex
  refine ⟨e1, by simpa using e2, by simpa using e3, by simpa using e4, ?_⟩
  intro u hu
  obtain ⟨fn, hcf, _⟩ := hex u hu
  refine ⟨fn, hcf, ?_⟩
  have : fn ∈ urls.filterMap constructFileName := List.mem_filterMap.mpr ⟨u, hu, hcf⟩
  rw [show (downloader g urls (downloader f urls fs0).fs).st.skipped =
    urls.filterMap constructFileName from by simpa using e4]
  exact this

/-- Witness for C3 (amended): one URL, first run succeeds, second run (with
an all-failing oracle) skips it and changes nothing. -/
theorem c3_witness :
    (downloader okFetch ["x/web/1if_/a"] []).st.errors = [] ∧
    (downloader errFetch ["x/web/1if_/a"] (downloader okFetch ["x/web/1if_/a"] []).fs).fs =
      (downloader okFetch ["x/web/1if_/a"] []).fs ∧
    (downloader errFetch ["x/web/1if_/a"]
        (downloader okFetch ["x/web/1if_/a"] []).fs).st.skipped = ["1_a"] := by
  have h0 : (downloader okFetch ["x/web/1if_/a"] []).st.errors = [] := rfl
  obtain ⟨e1, e2, e3, e4, e5⟩ := c3_amended okFetch errFetch ["x/web/1if_/a"] [] h0
  refine ⟨h0, e1, ?_⟩
  rw [e4]
  rfl

/-- C4: on a status document whose `errors` list holds exactly two entries
with distinct URLs — the first now succeeding (filename derivable, file
absent, fetch ok) and the second still failing (filename derivable, file
still absent, fetch error `m`) — the retry run appends the first URL's
filename to `downloaded`, removes its entry from `errors`, and leaves the
second URL's entry in `errors` (in place) with its `error` field
overwritten by `m`. -/
theorem c4_retry (f : Fetch) (dl sk fs0 : List String) (e1 e2 : ErrEntry)
    (f1 f2 c m : String)
    (hne : e1.url ≠ e2.url)
    (h1 : constructFileName e1.url = some f1) (h1f : f1 ∉ fs0)
    (hok : f e1.url = Except.ok c)
    (h2 : constructFileName e2.url = some f2) (h2f : f2 ∉ fs0) (h21 : f2 ≠ f1)
    (herr : f e2.url = Except.error m) :
    (retryRun f ⟨dl, sk, [e1, e2]⟩ fs0).1.doc.downloaded = dl ++ [f1] ∧
    (retryRun f ⟨dl, sk, [e1, e2]⟩ fs0).1.doc.errors = [⟨e2.url, m⟩] ∧
    e1.url ∉ ((retryRun f ⟨dl, sk, [e1, e2]⟩ fs0).1.doc.errors.map (fun e => e.url)) := by
  have hne2 : e2.url ≠ e1.url := Ne.symm hne
  have hstep1 : retryStep f ⟨fs0, ⟨dl, sk, [e1, e2]⟩, []⟩ e1.url =
      ⟨fs0 ++ [f1], ⟨dl ++ [f1], sk, [e2]⟩, [e1.url]⟩ := by
    simp [retryStep, h1, h1f, hok, hne2]
  have hstep2 : retryStep f ⟨fs0 ++ [f1], ⟨dl ++ [f1], sk, [e2]⟩, [e1.url]⟩ e2.url =
      ⟨fs0 ++ [f1], ⟨dl ++ [f1], sk, [⟨e2.url, m⟩]⟩, [e1.url, e2.url]⟩ := by
    have hmem : f2 ∉ fs0 ++ [f1] := by
      simp [List.mem_append, h2f, h21]
    simp [retryStep, h2, hmem, herr]
  have hrun : (retryRun f ⟨dl, sk, [e1, e2]⟩ fs0).1 =
      ⟨fs0 ++ [f1], ⟨dl ++ [f1], sk, [⟨e2.url, m⟩]⟩, [e1.url, e2.url]⟩ := by
    simp only [retryRun, List.map_cons, List.map_nil]
    rw [if_neg (by simp)]
    simp only [List.foldl_cons, List.foldl_nil]
    rw [hstep1, hstep2]
  refine ⟨by rw [hrun], by rw [hrun], ?_⟩
  rw [hrun]
  simp [hne]

/-- Witness for C4: two concrete errored snapshot URLs, the first
succeeding on retry and the second failing again. -/
theorem c4_witness :
    (retryRun mixFetch ⟨[], [], [⟨"x/web/1if_/a", "old1"⟩, ⟨"x/web/2if_/b", "old2"⟩]⟩
        []).1.doc.downloaded = ["1_a"] ∧
    (retryRun mixFetch ⟨[], [], [⟨"x/web/1if_/a", "old1"⟩, ⟨"x/web/2if_/b", "old2"⟩]⟩
        []).1.doc.errors = [⟨"x/web/2if_/b", "boom"⟩] := by
  obtain ⟨w1, w2, w3⟩ := c4_retry mixFetch [] [] []
    ⟨"x/web/1if_/a", "old1"⟩ ⟨"x/web/2if_/b", "old2"⟩ "1_a" "2_b" "body" "boom"
    (by decide) (by decide) (by decide) rfl (by decide) (by decide) (by decide) rfl
  exact ⟨by simpa using w1, w2⟩

lemma retryStep_skipped (f : Fetch) (s : RetryState) (url : String) :
    (retryStep f s url).doc.skipped = s.doc.skipped := by
  cases hcf : constructFileName url with
  | none => simp [retryStep, hcf]
  | some fn =>
    by_cases hm : fn ∈ s.fs
    · simp [retryStep, hcf, hm]
    · cases hf : f url with
      | ok c => simp [retryStep, hcf, hm, hf]
      | error m => simp [retryStep, hcf, hm, hf]

lemma retryFold_skipped (f : Fetch) :
    ∀ (us : List String) (s : RetryState),
      ((us.foldl (retryStep f) s)).doc.skipped = s.doc.skipped := by
  intro us
  induction us with
  | nil => intro s; rfl
  | cons a rest ih =>
    intro s
    rw [List.foldl_cons, ih (retryStep f s a), retryStep_skipped]

lemma retryStep_keep (f : Fetch) (s : RetryState) (url : String) (e : ErrEntry)
    (fn : String) (hcf : constructFileName e.url = some fn)
    (hfs : fn ∈ s.fs) (he : e ∈ s.doc.errors) :
    fn ∈ (retryStep f s url).fs ∧ e ∈ (retryStep f s url).doc.errors ∧
    List.count fn (retryStep f s url).doc.downloaded =
      List.count fn s.doc.downloaded := by
  cases hcu : constructFileName url with
  | none => exact ⟨by simpa [retryStep, hcu] using hfs, by simpa [retryStep, hcu] using he, by
      simp [retryStep, hcu]⟩
  | some g =>
    by_cases hm : g ∈ s.fs
    · exact ⟨by simpa [retryStep, hcu, hm] using hfs, by simpa [retryStep, hcu, hm] using he, by
        simp [retryStep, hcu, hm]⟩
    · have hgfn : g ≠ fn := fun h => hm (h ▸ hfs)
      have hfg : fn ≠ g := Ne.symm hgfn
      have hurl : e.url ≠ url := by
        intro h
        rw [h, hcu] at hcf
        exact hgfn (Option.some.inj hcf)
      cases hf : f url with
      | ok c =>
        have hstep : retryStep f s url =
            ⟨s.fs ++ [g],
             { s.doc with
                downloaded := s.doc.downloaded ++ [g],
                errors := s.doc.errors.filter (fun e => decide (e.url ≠ url)) },
             s.calls ++ [url]⟩ := by
          simp [retryStep, hcu, hm, hf]
        rw [hstep]
        refine ⟨List.mem_append_left _ hfs,
          List.mem_filter.mpr ⟨he, by simp [hurl]⟩, ?_⟩
        rw [List.count_append]
        simp [List.count_cons, hfg]
      | error m =>
        have hstep : retryStep f s url =
            ⟨s.fs,
             { s.doc with
                errors := s.doc.errors.map
                  (fun e => if e.url = url then ⟨e.url, m⟩ else e) },
             s.calls ++ [url]⟩ := by
          simp [retryStep, hcu, hm, hf]
        rw [hstep]
        exact ⟨hfs, List.mem_map.mpr ⟨e, he, by simp [hurl]⟩, rfl⟩

lemma retryFold_keep (f : Fetch) (e : ErrEntry) (fn : String)
    (hcf : constructFileName e.url = some fn) :
    ∀ (us : List String) (s : RetryState),
      fn ∈ s.fs → e ∈ s.doc.errors →
      fn ∈ ((us.foldl (retryStep f) s)).fs ∧
      e ∈ ((us.foldl (retryStep f) s)).doc.errors ∧
      List.count fn ((us.foldl (retryStep f) s)).doc.downloaded =
        List.count fn s.doc.downloaded := by
  intro us
  induction us with
  | nil => intro s h1 h2; exact ⟨h1, h2, rfl⟩
  | cons a rest ih =>
    intro s h1 h2
    obtain ⟨k1, k2, k3⟩ := retryStep_keep f s a e fn hcf h1 h2
    obtain ⟨r1, r2, r3⟩ := ih (retryStep f s a) k1 k2
    exact ⟨r1, r2, by rw [List.foldl_cons, r3, k3]⟩

/-- C10: a retry run never modifies the `skipped` list; and for an errored
entry whose derived file already exists in the working directory, the entry
stays in `errors` unchanged and its filename is never appended to
`downloaded` (so such an entry is never cleared from the document). -/
theorem c10_frame :
    (∀ (f : Fetch) (doc : Status) (fs0 : List String),
      (retryRun f doc fs0).1.doc.skipped = doc.skipped) ∧
    (∀ (f : Fetch) (doc : Status) (fs0 : List String) (e : ErrEntry) (fn : String),
      e ∈ doc.errors → constructFileName e.url = some fn → fn ∈ fs0 →
      e ∈ (retryRun f doc fs0).1.doc.errors ∧
      List.count fn (retryRun f doc fs0).1.doc.downloaded =
        List.count fn doc.downloaded) := by
  constructor
  · intro f doc fs0
    by_cases h : doc.errors.map (fun e => e.url) = []
    · simp [retryRun, h]
    · simp only [retryRun, if_neg h]
      exact retryFold_skipped f _ _
  · intro f doc fs0 e fn he hcf hfs
    by_cases h : doc.errors.map (fun e => e.url) = []
    · simp [retryRun, h]
      exact he
    · simp only [retryRun, if_neg h]
      obtain ⟨_, r2, r3⟩ :=
        retryFold_keep f e fn hcf (doc.errors.map (fun e => e.url)) ⟨fs0, doc, []⟩ hfs he
      exact ⟨r2, r3⟩

/-- Witness for C10: an errored URL whose file `1_a` already exists; the
entry survives the retry untouched and `skipped` is unchanged. -/
theorem c10_witness :
    ⟨"x/web/1if_/a", "msg"⟩ ∈
      (retryRun errFetch ⟨[], ["s"], [⟨"x/web/1if_/a", "msg"⟩]⟩ ["1_a"]).1.doc.errors ∧
    List.count "1_a"
      (retryRun errFetch ⟨[], ["s"], [⟨"x/web/1if_/a", "msg"⟩]⟩ ["1_a"]).1.doc.downloaded =
      List.count "1_a" ([] : List String) ∧
    (retryRun errFetch ⟨[], ["s"], [⟨"x/web/1if_/a", "msg"⟩]⟩ ["1_a"]).1.doc.skipped =
      ["s"] := by
  obtain ⟨k1, k2⟩ := c10_frame.2 errFetch ⟨[], ["s"], [⟨"x/web/1if_/a", "msg"⟩]⟩ ["1_a"]
    ⟨"x/web/1if_/a", "msg"⟩ "1_a" (by decide) (by decide) (by decide)
  exact ⟨k1, k2, c10_frame.1 errFetch ⟨[], ["s"], [⟨"x/web/1if_/a", "msg"⟩]⟩ ["1_a"]⟩

/-- C5: the at-most-one-list invariant fails for input lists that repeat a
URL: with `["x/web/1if_/a", "x/web/1if_/a"]` and a succeeding fetch, the
first occurrence downloads `1_a` and the second finds the file present, so
the URL's filename ends up in `downloaded` AND in `skipped`. -/
theorem c5_counterexample :
    constructFileName "x/web/1if_/a" = some "1_a" ∧
    "1_a" ∈ (downloader okFetch ["x/web/1if_/a", "x/web/1if_/a"] []).st.downloaded ∧
    "1_a" ∈ (downloader okFetch ["x/web/1if_/a", "x/web/1if_/a"] []).st.skipped ∧
    repCount "x/web/1if_/a" (downloader okFetch ["x/web/1if_/a", "x/web/1if_/a"] []).st = 2 := by
  refine ⟨rfl, by decide, by decide, by decide⟩

lemma repCount_empty (v : String) : repCount v ⟨[], [], []⟩ = 0 := by
  cases hv : constructFileName v <;> simp [repCount, hv]

lemma good_symmetric : ∀ {a b : String}, Good a b → Good b a := by
  rintro a b ⟨h1, h2⟩
  refine ⟨h1.symm, fun h => ?_⟩
  rw [h]
  exact h2 h.symm

lemma dlStep_repCount_frame (f : Fetch) (s : DlState) (a v : String)
    (hnm : ¬ Matches v a) :
    repCount v (dlStep f s a).st = repCount v s.st := by
  have hva : ¬ (v = a) := fun h => hnm (Or.inl h)
  cases hcf : constructFileName a with
  | none =>
    simp [dlStep, hcf, repCount, hva]
  | some fn =>
    have hvfn : constructFileName v ≠ some fn := by
      intro hv
      exact hnm (Or.inr ⟨by rw [hv, hcf], by rw [hcf]; rfl⟩)
    by_cases hm : fn ∈ s.fs
    · cases hv : constructFileName v with
      | none => simp [dlStep, hcf, hm, repCount, hv]
      | some fv =>
        have hfv : ¬ (fv = fn) := fun h => hvfn (by rw [hv, h])
        simp [dlStep, hcf, hm, repCount, hv, hfv]
    · cases hf : f a with
      | ok c =>
        cases hv : constructFileName v with
        | none => simp [dlStep, hcf, hm, hf, repCount, hv]
        | some fv =>
          have hfv : ¬ (fv = fn) := fun h => hvfn (by rw [hv, h])
          simp [dlStep, hcf, hm, hf, repCount, hv, hfv]
      | error m =>
        simp [dlStep, hcf, hm, hf, repCount, hva]

lemma dlStep_repCount_succ (f : Fetch) (s : DlState) (a v : String) :
    repCount v (dlStep f s a).st ≤ repCount v s.st + 1 := by
  cases hcf : constructFileName a with
  | none =>
    cases hv : constructFileName v with
    | none =>
      simp only [dlStep, hcf, repCount, hv, List.map_append, List.map_cons, List.map_nil,
        List.mem_append, List.mem_singleton]
      split_ifs <;> first | omega | norm_num
    | some fv =>
      simp only [dlStep, hcf, repCount, hv, List.map_append, List.map_cons, List.map_nil,
        List.mem_append, List.mem_singleton]
      split_ifs <;> first | omega | norm_num
  | some fn =>
    by_cases hm : fn ∈ s.fs
    · cases hv : constructFileName v with
      | none =>
        simp only [dlStep, hcf, hm, if_true, repCount, hv]
        omega
      | some fv =>
        simp only [dlStep, hcf, hm, if_true, repCount, hv, List.mem_append,
          List.mem_singleton]
        split_ifs <;> first | omega | norm_num
    · cases hf : f a with
      | ok c =>
        cases hv : constructFileName v with
        | none =>
          simp only [dlStep, hcf, hm, if_false, hf, repCount, hv]
          omega
        | some fv =>
          simp only [dlStep, hcf, hm, if_false, hf, repCount, hv, List.mem_append,
            List.mem_singleton]
          split_ifs <;> first | omega | norm_num
      | error m =>
        cases hv : constructFileName v with
        | none =>
          simp only [dlStep, hcf, hm, if_false, hf, repCount, hv, List.map_append,
            List.map_cons, List.map_nil, List.mem_append, List.mem_singleton]
          split_ifs <;> first | omega | norm_num
        | some fv =>
          simp only [dlStep, hcf, hm, if_false, hf, repCount, hv, List.map_append,
            List.map_cons, List.map_nil, List.mem_append, List.mem_singleton]
          split_ifs <;> first | omega | norm_num

lemma matches_contra (a u v : String) (hg : Good a u)
    (hma : Matches v a) (hmu : Matches v u) : False := by
  obtain ⟨hau, hfa⟩ := hg
  rcases hma with rfl | ⟨hwa, hsa⟩
  · rcases hmu with rfl | ⟨hwu, hsu⟩
    · exact hau rfl
    · have h0 := hfa hwu
      rw [hwu] at h0
      rw [h0] at hsu
      simp at hsu
  · rcases hmu with rfl | ⟨hwu, hsu⟩
    · have h1 : constructFileName a = constructFileName v := hwa.symm
      have h0 := hfa (by rw [h1])
      rw [h0] at hsa
      simp at hsa
    · have h1 : constructFileName a = constructFileName u := by rw [← hwa, hwu]
      have h0 := hfa h1
      rw [h0] at hsa
      simp at hsa

lemma dlRun_repCount (f : Fetch) :
    ∀ (urls : List String) (s : DlState),
      urls.Pairwise Good →
      (∀ v, repCount v s.st ≤ 1) →
      (∀ v u, u ∈ urls → Matches v u → repCount v s.st = 0) →
      ∀ v, repCount v (dlRun f urls s).st ≤ 1 := by
  intro urls
  induction urls with
  | nil =>
    intro s _ h1 _ v
    simpa [dlRun] using h1 v
  | cons a rest ih =>
    intro s hpw h1 h0 v
    rw [show dlRun f (a :: rest) s = dlRun f rest (dlStep f s a) from rfl]
    have hgood := (List.pairwise_cons.mp hpw).1
    have hpw2 := (List.pairwise_cons.mp hpw).2
    refine ih (dlStep f s a) hpw2 ?_ ?_ v
    · intro w
      by_cases hw : Matches w a
      · have hz := h0 w a (List.mem_cons_self a rest) hw
        have := dlStep_repCount_succ f s a w
        omega
      · rw [dlStep_repCount_frame f s a w hw]
        exact h1 w
    · intro w u hu hm
      have hz := h0 w u (List.mem_cons_of_mem a hu) hm
      by_cases hw : Matches w a
      · exact absurd (matches_contra a u w (hgood u hu) hw hm) (fun h => h)
      · rw [dlStep_repCount_frame f s a w hw]
        exact hz

lemma repCount_err_mem (doc : Status) (a g : String)
    (hcf : constructFileName a = some g)
    (hin : a ∈ doc.errors.map (fun e => e.url))
    (h1 : repCount a doc ≤ 1) :
    g ∉ doc.downloaded ∧ g ∉ doc.skipped := by
  simp only [repCount, hcf, hin, if_pos] at h1
  constructor
  · intro hd
    simp only [hd, if_pos] at h1
    split_ifs at h1 <;> first | omega | simp_all
  · intro hs
    simp only [hs, if_pos] at h1
    split_ifs at h1 <;> first | omega | simp_all

lemma retryStep_fail_repCount (s : RetryState) (url m v : String) :
    repCount v
      { s.doc with
         errors := s.doc.errors.map
           (fun e => if e.url = url then ⟨e.url, m⟩ else e) } = repCount v s.doc := by
  have hurls : (s.doc.errors.map (fun e => if e.url = url then ⟨e.url, m⟩ else e)).map
      (fun e => e.url) = s.doc.errors.map (fun e => e.url) := by
    rw [List.map_map]
    apply List.map_congr_left
    intro e _
    by_cases h : e.url = url <;> simp [h]
  cases hv : constructFileName v <;> simp [repCount, hv, hurls]

lemma pairwise_good_get (orig : List String) (hpw : orig.Pairwise Good) :
    ∀ a ∈ orig, ∀ b ∈ orig, a ≠ b → Good a b := by
  induction orig with
  | nil => intro a ha; cases ha
  | cons x xs ih =>
    intro a ha b hb hab
    obtain ⟨hx, hxs⟩ := List.pairwise_cons.mp hpw
    rcases List.mem_cons.mp ha with rfl | ha2
    · rcases List.mem_cons.mp hb with rfl | hb2
      · exact absurd rfl hab
      · exact hx b hb2
    · rcases List.mem_cons.mp hb with rfl | hb2
      · exact good_symmetric (hx a ha2)
      · exact ih hxs a ha2 b hb2 hab

lemma retryFold_repCount (f : Fetch) (orig : List String) (hpw : orig.Pairwise Good) :
    ∀ (us : List String) (s : RetryState),
      us.Nodup →
      (∀ u ∈ us, u ∈ orig) →
      (∀ w, w ∈ s.doc.errors.map (fun e => e.url) → w ∈ orig) →
      (∀ u ∈ us, u ∈ s.doc.errors.map (fun e => e.url)) →
      (∀ v, repCount v s.doc ≤ 1) →
      ∀ v, repCount v ((us.foldl (retryStep f) s)).doc ≤ 1 := by
  intro us
  induction us with
  | nil =>
    intro s _ _ _ _ h1 v
    simpa using h1 v
  | cons a rest ih =>
    intro s hnd hsub herrsub hin h1 v
    rw [List.foldl_cons]
    have hnd2 := (List.nodup_cons.mp hnd).2
    have hna : a ∉ rest := (List.nodup_cons.mp hnd).1
    have hsub2 : ∀ u ∈ rest, u ∈ orig := fun u hu => hsub u (List.mem_cons_of_mem a hu)
    have hin2 : ∀ u ∈ rest, u ∈ s.doc.errors.map (fun e => e.url) :=
      fun u hu => hin u (List.mem_cons_of_mem a hu)
    have hina : a ∈ s.doc.errors.map (fun e => e.url) := hin a (List.mem_cons_self a rest)
    cases hcu : constructFileName a with
    | none =>
      have hid : retryStep f s a = s := by simp [retryStep, hcu]
      rw [hid]
      exact ih s hnd2 hsub2 herrsub hin2 h1 v
    | some g =>
      by_cases hm : g ∈ s.fs
      · have hid : retryStep f s a = s := by simp [retryStep, hcu, hm]
        rw [hid]
        exact ih s hnd2 hsub2 herrsub hin2 h1 v
      · cases hf : f a with
        | error m =>
          have hstep : retryStep f s a =
              ⟨s.fs,
               { s.doc with
                  errors := s.doc.errors.map
                    (fun e => if e.url = a then ⟨e.url, m⟩ else e) },
               s.calls ++ [a]⟩ := by
            simp [retryStep, hcu, hm, hf]
          rw [hstep]
          have hurls : (s.doc.errors.map (fun e => if e.url = a then ⟨e.url, m⟩ else e)).map
              (fun e => e.url) = s.doc.errors.map (fun e => e.url) := by
            rw [List.map_map]
            apply List.map_congr_left
            intro e _
            by_cases h : e.url = a <;> simp [h]
          refine ih _ hnd2 hsub2 ?_ ?_ ?_ v
          · intro w hw
            replace hw : w ∈ (s.doc.errors.map
                (fun e => if e.url = a then ⟨e.url, m⟩ else e)).map (fun e => e.url) := hw
            rw [hurls] at hw
            exact herrsub w hw
          · intro u hu
            show u ∈ (s.doc.errors.map
                (fun e => if e.url = a then ⟨e.url, m⟩ else e)).map (fun e => e.url)
            rw [hurls]
            exact hin2 u hu
          · intro w
            have heq := retryStep_fail_repCount s a m w
            show repCount w
              { s.doc with
                 errors := s.doc.errors.map
                   (fun e => if e.url = a then ⟨e.url, m⟩ else e) } ≤ 1
            rw [heq]
            exact h1 w
        | ok c =>
          have hstep : retryStep f s a =
              ⟨s.fs ++ [g],
               { s.doc with
                  downloaded := s.doc.downloaded ++ [g],
                  errors := s.doc.errors.filter (fun e => decide (e.url ≠ a)) },
               s.calls ++ [a]⟩ := by
            simp [retryStep, hcu, hm, hf]
          rw [hstep]
          obtain ⟨hgd, hgs⟩ := repCount_err_mem s.doc a g hcu hina (h1 a)
          have haor : a ∈ orig := hsub a (List.mem_cons_self a rest)
          refine ih _ hnd2 hsub2 ?_ ?_ ?_ v
          · intro w hw
            replace hw : w ∈ (s.doc.errors.filter
                (fun e => decide (e.url ≠ a))).map (fun e => e.url) := hw
            obtain ⟨e, he, hwe⟩ := List.mem_map.mp hw
            exact herrsub w (List.mem_map.mpr ⟨e, (List.mem_filter.mp he).1, hwe⟩)
          · intro u hu
            have hune : u ≠ a := fun h => hna (h ▸ hu)
            obtain ⟨e, he, heu⟩ := List.mem_map.mp (hin2 u hu)
            show u ∈ (s.doc.errors.filter
                (fun e => decide (e.url ≠ a))).map (fun e => e.url)
            exact List.mem_map.mpr ⟨e, List.mem_filter.mpr ⟨he, by simp [heu, hune]⟩, heu⟩
          · intro w
            show repCount w { s.doc with
                downloaded := s.doc.downloaded ++ [g],
                errors := s.doc.errors.filter (fun e => decide (e.url ≠ a)) } ≤ 1
            have h1w := h1 w
            cases hv : constructFileName w with
            | none =>
              simp only [repCount, hv]
              split_ifs <;> first | omega | norm_num
            | some fw =>
              simp only [repCount, hv] at h1w ⊢
              by_cases hfw : fw = g
              · have hwm : w ∉ (s.doc.errors.filter
                    (fun e => decide (e.url ≠ a))).map (fun e => e.url) := by
                  intro hwm
                  obtain ⟨e, he, heu⟩ := List.mem_map.mp hwm
                  obtain ⟨he0, hdec⟩ := List.mem_filter.mp he
                  have hwa : w ≠ a := by
                    intro h
                    rw [heu, h] at hdec
                    simp at hdec
                  have hworig : w ∈ orig :=
                    herrsub w (List.mem_map.mpr ⟨e, he0, heu⟩)
                  have hgood2 : Good a w :=
                    pairwise_good_get orig hpw a haor w hworig (Ne.symm hwa)
                  have hnone := hgood2.2 (by rw [hcu, hv, hfw])
                  rw [hcu] at hnone
                  exact Option.noConfusion hnone
                have hdin : fw ∈ s.doc.downloaded ++ [g] := by
                  rw [hfw]
                  exact List.mem_append_right _ (List.mem_singleton.mpr rfl)
                have hgs2 : fw ∉ s.doc.skipped := by
                  rw [hfw]
                  exact hgs
                rw [if_pos hdin, if_neg hgs2, if_neg hwm]
              · by_cases hwm : w ∈ (s.doc.errors.filter
                    (fun e => decide (e.url ≠ a))).map (fun e => e.url)
                · have hwm0 : w ∈ s.doc.errors.map (fun e => e.url) := by
                    obtain ⟨e, he, heu⟩ := List.mem_map.mp hwm
                    exact List.mem_map.mpr ⟨e, (List.mem_filter.mp he).1, heu⟩
                  rw [if_pos hwm0] at h1w
                  rw [if_pos hwm]
                  have hde : fw ∉ s.doc.downloaded := by
                    by_contra hd
                    rw [if_pos hd] at h1w
                    split_ifs at h1w <;> exact absurd h1w (by norm_num)
                  have hse : fw ∉ s.doc.skipped := by
                    by_contra hs2
                    rw [if_pos hs2] at h1w
                    split_ifs at h1w <;> exact absurd h1w (by norm_num)
                  have hda : fw ∉ s.doc.downloaded ++ [g] := by
                    simp [List.mem_append, hde, hfw]
                  rw [if_neg hda, if_neg hse]
                · rw [if_neg hwm]
                  have hda : (if fw ∈ s.doc.downloaded ++ [g] then (1 : Nat) else 0) =
                      (if fw ∈ s.doc.downloaded then 1 else 0) := by
                    simp [List.mem_append, hfw]
                  rw [hda]
                  refine le_trans ?_ h1w
                  exact Nat.add_le_add_left (Nat.zero_le _) _

/-- C5 (amended): for input URL lists that are duplicate-free and
filename-injective (no two distinct URLs deriving the same present
filename — the `Good` relation pairwise), every URL is represented in at
most one of the three status lists after a download run; and a retry run
preserves that invariant whenever the errored URLs are pairwise `Good`.
Without those hypotheses the claim fails (see the counterexample). -/
theorem c5_amended :
    (∀ (f : Fetch) (urls fs0 : List String),
        urls.Pairwise Good → ∀ v, repCount v (downloader f urls fs0).st ≤ 1) ∧
    (∀ (f : Fetch) (doc : Status) (fs0 : List String),
        (doc.errors.map (fun e => e.url)).Pairwise Good →
        (∀ v, repCount v doc ≤ 1) →
        ∀ v, repCount v (retryRun f doc fs0).1.doc ≤ 1) := by
  constructor
  · intro f urls fs0 hpw v
    refine dlRun_repCount f urls ⟨fs0, ⟨[], [], []⟩⟩ hpw ?_ ?_ v
    · intro w
      rw [repCount_empty]
      exact Nat.zero_le 1
    · intro w u _ _
      exact repCount_empty w
  · intro f doc fs0 hpw h1 v
    by_cases h : doc.errors.map (fun e => e.url) = []
    · have hrw : retryRun f doc fs0 = (⟨fs0, doc, []⟩, false) := by
        simp [retryRun, h]
      rw [hrw]
      exact h1 v
    · have hrw : (retryRun f doc fs0).1 =
          (doc.errors.map (fun e => e.url)).foldl (retryStep f) ⟨fs0, doc, []⟩ := by
        simp [retryRun, h]
      rw [hrw]
      refine retryFold_repCount f (doc.errors.map (fun e => e.url)) hpw
        (doc.errors.map (fun e => e.url)) ⟨fs0, doc, []⟩ ?_
        (fun u hu => hu) (fun w hw => hw) (fun u hu => hu) h1 v
      exact hpw.imp (fun hg => hg.1)

/-- Witness for C5 (amended): a single valid URL satisfies the pairwise
hypothesis, and after the run it is represented at most once. -/
theorem c5_witness :
    repCount "x/web/1if_/a" (downloader okFetch ["x/web/1if_/a"] []).st ≤ 1 :=
  c5_amended.1 okFetch ["x/web/1if_/a"] [] (by simp) "x/web/1if_/a"

end Wayback
